import Mathlib

/-!
# Verification of the yysfold ML pipeline against its specification

This file embeds the two Python source files of the repository,
`src/ml/train_isolation_forest.py` and `src/ml/compute_stats.py`, as Lean
definitions and settles the specification claims against them.

Modelling conventions:
* Python floats are modelled as rationals (`ℚ`): every operation the claims
  exercise (flattening, padding, truncation, sorting, linear-interpolation
  percentiles, negation) is exact arithmetic, so rationals are a faithful
  carrier.  `np.std` (a square root) appears in no claim and is omitted from
  the embedded statistics record.
* A JSONL line is an `Option Json`: `none` models a line that
  `json.loads` fails to parse (raising `json.JSONDecodeError`), `some j`
  models a successfully parsed value `j`.  JSON booleans and strings are not
  modelled: no claim depends on them.
* The external Isolation Forest capability (`fit` / `score_samples`) is taken
  as an opaque function parameter, mirroring the spec, which treats it as an
  abstract capability.
-/

/-- A parsed JSON value, restricted to the shapes the claims exercise.
JSON booleans and strings are omitted (no claim depends on them). -/
inductive Json where
  | null
  | num (q : ℚ)
  | arr (xs : List Json)
  | obj (fields : List (String × Json))

/-- Python exceptions that escape or are raised during per-record processing
and are relevant to the claims. -/
inductive PyErr where
  /-- `AttributeError`: raised by `record.get(...)` when the parsed JSON value
  is not a dict (`train_isolation_forest.py` line 33 /
  `compute_stats.py` line 20). -/
  | attributeError
  /-- `ValueError`: raised by `np.array` on ragged (inhomogeneous) nested
  input (`train_isolation_forest.py` line 35 / `compute_stats.py` line 22). -/
  | valueError
deriving DecidableEq, Repr

/-- Python `dict` lookup (`fs.get k` / `fs[k]`): `json.loads` keeps the last
occurrence of a duplicated JSON key, so lookup runs over the reversed
association list. -/
def dictGet (fs : List (String × Json)) (k : String) : Option Json :=
  fs.reverse.lookup k

/-- Python truthiness (`if block_vectors:`) for the modelled JSON values:
`None`, `0` and empty containers are falsy
(`train_isolation_forest.py` line 34 / `compute_stats.py` line 21). -/
def truthy : Json → Bool
  | .null => false
  | .num q => decide (q ≠ 0)
  | .arr xs => !xs.isEmpty
  | .obj fs => !fs.isEmpty

/-- Interprets a list of JSON values as a flat list of numbers, when every
element is a number. -/
def allNums : List Json → Option (List ℚ)
  | [] => some []
  | .num q :: rest => (allNums rest).map (fun qs => q :: qs)
  | _ => none

/-- Interprets a list of JSON values as a list of numeric rows, when every
element is an array of numbers. -/
def allRows : List Json → Option (List (List ℚ))
  | [] => some []
  | .arr xs :: rest =>
    match allNums xs, allRows rest with
    | some r, some rs => some (r :: rs)
    | _, _ => none
  | _ => none

/-- All rows have the same length (the homogeneity `np.array` requires). -/
def rectangular : List (List ℚ) → Bool
  | [] => true
  | r :: rs => rs.all (fun x => x.length == r.length)

/-- `np.array(v).flatten()` (`train_isolation_forest.py` line 35 /
`compute_stats.py` line 22) on the shapes the claims exercise: a numeric
scalar, a flat numeric list, or a rectangular list of numeric rows, flattened
in row order.  Ragged nesting raises `ValueError` in numpy; the remaining
JSON shapes inside a `vectors` field (e.g. objects, deeper nesting) are
outside the scope of every claim and are conservatively mapped to
`ValueError` as well — no theorem below depends on that corner. -/
def npFlatten : Json → Except PyErr (List ℚ)
  | .num q => .ok [q]
  | .arr xs =>
    match allNums xs with
    | some qs => .ok qs
    | none =>
      match allRows xs with
      | some rows => if rectangular rows then .ok rows.flatten else .error .valueError
      | none => .error .valueError
  | _ => .error .valueError

/-- Lines 37–40 of `train_isolation_forest.py` (identically lines 23–26 of
`compute_stats.py`): pad a flattened fingerprint with zeros on the right to
96 entries, or truncate it to its first 96 entries. -/
def padTrunc (flat : List ℚ) : List ℚ :=
  if flat.length < 96 then flat ++ List.replicate (96 - flat.length) 0
  else if flat.length > 96 then flat.take 96
  else flat

/-- The pad/truncate composition of lines 35–40 of
`train_isolation_forest.py` over a totalized flatten.  This matches the code
only on rectangular input: on ragged sub-vectors line 35 raises `ValueError`
and no vector is produced, which `vectorizeJson` below models faithfully.
`vectorize` is kept for the idempotence statement, which exercises it only on
an already-produced 96-length vector (a rectangular singleton, where it
agrees with the code exactly). -/
def vectorize (vs : List (List ℚ)) : List ℚ :=
  padTrunc vs.flatten

/-- The vectorizer exactly as the code runs it (`train_isolation_forest.py`
lines 35–40 / `compute_stats.py` lines 22–26): `np.array(...).flatten()` can
raise `ValueError` (ragged input); only on success is the flattened vector
padded or truncated to 96 entries. -/
def vectorizeJson (bv : Json) : Except PyErr (List ℚ) :=
  (npFlatten bv).map padTrunc

/-- Embeds a sequence of numeric sub-vectors as the JSON value of a
`vectors` field. -/
def jsonOfRows (rows : List (List ℚ)) : Json :=
  .arr (rows.map (fun r => .arr (r.map .num)))

theorem padTrunc_length (xs : List ℚ) : (padTrunc xs).length = 96 := by
  by_cases h1 : xs.length < 96
  · simp only [padTrunc, if_pos h1, List.length_append, List.length_replicate]
    omega
  · by_cases h2 : xs.length > 96
    · simp only [padTrunc, if_neg h1, if_pos h2, List.length_take]
      omega
    · simp only [padTrunc, if_neg h1, if_neg h2]
      omega

theorem padTrunc_eq_of_length (xs : List ℚ) (h : xs.length = 96) : padTrunc xs = xs := by
  unfold padTrunc
  rw [if_neg (by omega), if_neg (by omega)]

theorem allNums_map_num (r : List ℚ) : allNums (r.map Json.num) = some r := by
  induction r with
  | nil => rfl
  | cons q r ih => simp [allNums, ih]

theorem allRows_map (rows : List (List ℚ)) :
    allRows (rows.map (fun r => Json.arr (r.map Json.num))) = some rows := by
  induction rows with
  | nil => rfl
  | cons r rs ih => simp [allRows, allNums_map_num, ih]

theorem npFlatten_jsonOfRows (rows : List (List ℚ)) :
    npFlatten (jsonOfRows rows) =
      if rectangular rows then .ok rows.flatten else .error .valueError := by
  cases rows with
  | nil => rfl
  | cons r rs =>
    have h2 := allRows_map (r :: rs)
    have step : npFlatten (jsonOfRows (r :: rs))
        = (match allRows ((r :: rs).map (fun x => Json.arr (x.map Json.num))) with
            | some rows => if rectangular rows then Except.ok rows.flatten
                else Except.error PyErr.valueError
            | none => Except.error PyErr.valueError) := rfl
    rw [step, h2]

/-- Counterexample to claim C1: on ragged sub-vectors — allowed by the
claim's quantification over every input sequence of numeric sub-vectors
(here `[[1,2],[3]]`, flattened length 3) — `np.array(block_vectors)` raises
`ValueError` (`train_isolation_forest.py` line 35 / `compute_stats.py`
line 22), so the vectorizer returns no 96-vector at all: in particular not
the flattened input followed by `96 − 3` zeros that the claim prescribes. -/
theorem C1_counterexample :
    vectorizeJson (jsonOfRows [[1, 2], [3]]) = .error .valueError ∧
    ¬ vectorizeJson (jsonOfRows [[1, 2], [3]])
        = .ok ([1, 2, 3] ++ List.replicate 93 0) := by
  constructor
  · rfl
  · intro h
    rw [show vectorizeJson (jsonOfRows [[1, 2], [3]]) = .error .valueError from rfl] at h
    exact Except.noConfusion h

/-- Claim C1, amended: restricted to inputs `np.array` accepts — sequences
of numeric sub-vectors of equal length (rectangular) — the vectorizer
returns a vector of length exactly 96; if the flattened length `L < 96` the
output is the flattened input followed by `96 − L` zeros; if `L > 96` it is
the first 96 flattened elements in order; if `L = 96` it is the flattened
input unchanged.  On ragged input the code raises `ValueError` and returns
no vector. -/
theorem C1_amended_vectorizer_pad_truncate (rows : List (List ℚ)) :
    (rectangular rows = true →
      vectorizeJson (jsonOfRows rows) = .ok (padTrunc rows.flatten) ∧
      (padTrunc rows.flatten).length = 96 ∧
      (rows.flatten.length < 96 →
        padTrunc rows.flatten = rows.flatten ++ List.replicate (96 - rows.flatten.length) 0) ∧
      (rows.flatten.length > 96 → padTrunc rows.flatten = rows.flatten.take 96) ∧
      (rows.flatten.length = 96 → padTrunc rows.flatten = rows.flatten)) ∧
    (rectangular rows = false →
      vectorizeJson (jsonOfRows rows) = .error .valueError) := by
  constructor
  · intro hrect
    refine ⟨?_, padTrunc_length _, fun h => ?_, fun h => ?_, fun h => ?_⟩
    · unfold vectorizeJson
      rw [npFlatten_jsonOfRows, if_pos hrect]
      rfl
    · unfold padTrunc
      rw [if_pos h]
    · unfold padTrunc
      rw [if_neg (by omega), if_pos h]
    · exact padTrunc_eq_of_length _ h
  · intro hrect
    unfold vectorizeJson
    rw [npFlatten_jsonOfRows, if_neg (by simp [hrect])]
    rfl

/-- Witness for the amended C1 at a concrete rectangular input of flattened
length 2. -/
theorem C1_amended_vectorizer_pad_truncate_witness :
    (rectangular [[(1 : ℚ), 2]] = true) ∧
    vectorizeJson (jsonOfRows [[(1 : ℚ), 2]]) = .ok (padTrunc [1, 2]) :=
  ⟨by decide,
    ((C1_amended_vectorizer_pad_truncate [[(1 : ℚ), 2]]).1 (by decide)).1⟩

/-- Claim C8: the vectorizer is idempotent — re-vectorizing a produced
96-length vector is a no-op, `vectorize (vectorize v) = vectorize v`. -/
theorem C8_vectorizer_idempotent (vs : List (List ℚ)) :
    vectorize [vectorize vs] = vectorize vs := by
  show padTrunc ([vectorize vs].flatten) = vectorize vs
  rw [show [vectorize vs].flatten = vectorize vs by simp]
  exact padTrunc_eq_of_length _ (padTrunc_length _)

/-- Outcome of processing one JSONL line inside the loop body of
`load_training_data` (`train_isolation_forest.py` lines 29–43). -/
inductive RecStep where
  /-- The record is skipped (caught exception, or falsy `vectors`). -/
  | skip
  /-- A fingerprint vector is appended to the dataset. -/
  | keep (v : List ℚ)
  /-- An uncaught exception propagates and aborts the whole load. -/
  | fatal (e : PyErr)

/-- One iteration of `load_training_data`'s loop
(`train_isolation_forest.py` lines 29–43): a parse failure
(`json.JSONDecodeError`) is caught and skipped; on a parsed dict, the
`vectors` field (defaulting to `[]`) is tested for truthiness, flattened,
padded/truncated and kept; a parsed non-dict raises `AttributeError` at
`record.get`, which the clause `except (json.JSONDecodeError, KeyError)`
does not catch, so it aborts the load; `np.array` failures (`ValueError` on
ragged input) are likewise uncaught. -/
def processLineTrain : Option Json → RecStep
  | none => .skip
  | some (.obj fs) =>
    let bv := (dictGet fs "vectors").getD (.arr [])
    if truthy bv then
      match npFlatten bv with
      | .ok flat => .keep (padTrunc flat)
      | .error e => .fatal e
    else .skip
  | some _ => .fatal .attributeError

/-- The record loop of `load_training_data` over an already-capped list of
lines: accumulates kept fingerprints in input order; a `fatal` step makes the
whole load fail (the Python exception propagates out of the function). -/
def loadTrainGo : List (Option Json) → Except PyErr (List (List ℚ))
  | [] => .ok []
  | l :: ls =>
    match processLineTrain l with
    | .skip => loadTrainGo ls
    | .keep v => (loadTrainGo ls).map (fun vs => v :: vs)
    | .fatal e => .error e

/-- `load_training_data(input_path, max_samples)`
(`train_isolation_forest.py` lines 21–46): the loop
`for i, line in enumerate(f): if i >= max_samples: break` processes exactly
the first `max_samples` lines. -/
def loadTrain (lines : List (Option Json)) (maxSamples : ℕ) :
    Except PyErr (List (List ℚ)) :=
  loadTrainGo (lines.take maxSamples)

/-- One iteration of the loading loop of `compute_stats.py` (lines 18–29):
identical to the training loop except that the bare `except:` clause absorbs
every exception, so no record is ever fatal — the result is `some v` for a
kept fingerprint and `none` for a skipped record. -/
def processLineStats (line : Option Json) : Option (List ℚ) :=
  match processLineTrain line with
  | .keep v => some v
  | _ => none

/-- The loader of `compute_stats.py` (lines 13–29), parameterized by its
record cap: processes the first `cap` lines and keeps the fingerprints of the
valid ones, in order. -/
def loadStats (lines : List (Option Json)) (cap : ℕ) : List (List ℚ) :=
  (lines.take cap).filterMap processLineStats

/-- Default of the `--max-samples` CLI option
(`train_isolation_forest.py` line 112) and of `load_training_data`'s
`max_samples` parameter (line 21). -/
def trainMaxSamplesDefault : ℕ := 50000

/-- The hard-coded record cap of the statistics loader
(`compute_stats.py` line 16: `if i >= 30000: break`). -/
def statsMaxSamples : ℕ := 30000

theorem loadTrain_take (lines : List (Option Json)) (k : ℕ) :
    loadTrain lines k = loadTrain (lines.take k) k := by
  unfold loadTrain
  rw [List.take_take, min_self]

theorem loadStats_take (lines : List (Option Json)) (k : ℕ) :
    loadStats lines k = loadStats (lines.take k) k := by
  unfold loadStats
  rw [List.take_take, min_self]

theorem loadTrainGo_length : ∀ (lines : List (Option Json)) (ds : List (List ℚ)),
    loadTrainGo lines = .ok ds → ds.length ≤ lines.length := by
  intro lines
  induction lines with
  | nil =>
    intro ds h
    cases h
    exact Nat.le_refl 0
  | cons l ls ih =>
    intro ds h
    unfold loadTrainGo at h
    cases hp : processLineTrain l <;> rw [hp] at h
    · exact Nat.le_succ_of_le (ih ds h)
    · cases hrec : loadTrainGo ls <;> rw [hrec] at h
      · cases h
      · cases h
        simpa using Nat.succ_le_succ (ih _ hrec)
    · cases h

/-- Claim C5: for every cap `k` and every source, both loaders examine at
most the first `k` records (the result depends only on `lines.take k`), and
the returned dataset has size at most `k`. -/
theorem C5_cap_bounds_examined (lines : List (Option Json)) (k : ℕ) :
    loadTrain lines k = loadTrain (lines.take k) k ∧
    (∀ ds, loadTrain lines k = .ok ds → ds.length ≤ k) ∧
    loadStats lines k = loadStats (lines.take k) k ∧
    (loadStats lines k).length ≤ k := by
  refine ⟨loadTrain_take lines k, fun ds h => ?_, loadStats_take lines k, ?_⟩
  · exact le_trans (loadTrainGo_length _ ds h) (by simp)
  · exact le_trans (List.length_filterMap_le _ _) (by simp)

/-- A well-formed JSONL record with two numeric sub-vectors. -/
def goodLine : Option Json :=
  some (.obj [("vectors", .arr [.arr [.num 1, .num 2]])])

/-- Witness for C5: a 3-record source under cap 2 yields exactly the first 2
fingerprints. -/
theorem C5_cap_bounds_examined_witness :
    loadTrain [goodLine, goodLine, goodLine] 2 = .ok [padTrunc [1, 2], padTrunc [1, 2]] ∧
    [padTrunc [(1 : ℚ), 2], padTrunc [1, 2]].length ≤ 2 :=
  ⟨by rfl, (C5_cap_bounds_examined [goodLine, goodLine, goodLine] 2).2.1 _ (by rfl)⟩

/-- Counterexample to claim C4: the line `42` is valid JSON whose shape is
wrong (not an object, so it has no `vectors` field), yet it is not skipped:
`record.get` raises `AttributeError`, which the clause
`except (json.JSONDecodeError, KeyError)` of `train_isolation_forest.py`
(line 42) does not catch, so the single malformed record aborts the whole
load — the valid records around it are lost.  The same source without that
record loads fine. -/
theorem C4_counterexample :
    loadTrain [goodLine, some (.num 42), goodLine] 10 = .error .attributeError ∧
    loadTrain [goodLine, goodLine] 10 = .ok [padTrunc [1, 2], padTrunc [1, 2]] := by
  constructor <;> rfl

/-- Claim C4, amended: records that fail to parse are skipped by both
loaders, and the statistics loader's bare `except:` absorbs every per-record
failure; but in the training loader a record that parses to a non-object
JSON value raises an uncaught `AttributeError` and aborts the load. -/
theorem C4_amended_per_record_errors (rest : List (Option Json)) (k : ℕ) :
    loadTrain (none :: rest) (k + 1) = loadTrain rest k ∧
    loadStats (none :: rest) (k + 1) = loadStats rest k ∧
    loadTrain (some (.num 42) :: rest) (k + 1) = .error .attributeError ∧
    loadStats (some (.num 42) :: rest) (k + 1) = loadStats rest k := by
  refine ⟨?_, ?_, ?_, ?_⟩ <;>
    simp only [loadTrain, loadStats, List.take_succ_cons, List.filterMap_cons] <;> rfl

/-- Counterexample to claim C9: the statistics-update loader's cap is the
hard-coded literal 30000 of `compute_stats.py` line 16, not 50000. -/
theorem C9_counterexample :
    ¬ statsMaxSamples = 50000 ∧ statsMaxSamples = 30000 := by
  constructor <;> decide

/-- Claim C9, amended: the training loader's default cap is 50000
(`--max-samples` default and `load_training_data`'s parameter default), while
the statistics-update loader uses a hard-coded cap of 30000 records; each
loader's result depends only on the records below its cap. -/
theorem C9_amended_default_caps :
    trainMaxSamplesDefault = 50000 ∧ statsMaxSamples = 30000 ∧
    (∀ lines, loadStats lines statsMaxSamples =
      loadStats (lines.take statsMaxSamples) statsMaxSamples) ∧
    (∀ lines, loadTrain lines trainMaxSamplesDefault =
      loadTrain (lines.take trainMaxSamplesDefault) trainMaxSamplesDefault) :=
  ⟨rfl, rfl, fun lines => loadStats_take lines _, fun lines => loadTrain_take lines _⟩

/-- Ascending sort of the score sequence, as `np.percentile` performs
internally.  For a linear order, the sorted permutation of a list is unique,
so any correct sort models numpy's. -/
def sortScores (xs : List ℚ) : List ℚ :=
  List.insertionSort (· ≤ ·) xs

theorem sortScores_sorted (xs : List ℚ) : List.Sorted (· ≤ ·) (sortScores xs) :=
  List.sorted_insertionSort (· ≤ ·) xs

theorem sortScores_perm (xs : List ℚ) : List.Perm (sortScores xs) xs :=
  List.perm_insertionSort (· ≤ ·) xs

theorem sortScores_length (xs : List ℚ) : (sortScores xs).length = xs.length :=
  (sortScores_perm xs).length_eq

theorem mem_of_mem_sortScores {xs : List ℚ} {a : ℚ} (h : a ∈ sortScores xs) : a ∈ xs :=
  (sortScores_perm xs).mem_iff.mp h

/-- Linear interpolation between adjacent ranks of a sorted sequence at
virtual index `h`: `s[⌊h⌋] + (h − ⌊h⌋)·(s[⌊h⌋+1] − s[⌊h⌋])`, the default
(`linear`) interpolation of `np.percentile`.  The upper neighbour defaults to
the lower one when `⌊h⌋` is the last index; its coefficient `h − ⌊h⌋` is zero
there, so this agrees with numpy's index clipping. -/
def interp (s : List ℚ) (h : ℚ) : ℚ :=
  s.getD (⌊h⌋).toNat 0 +
    (h - ((⌊h⌋).toNat : ℚ)) *
      (s.getD ((⌊h⌋).toNat + 1) (s.getD (⌊h⌋).toNat 0) - s.getD (⌊h⌋).toNat 0)

/-- `np.percentile(xs, q)` with linear interpolation: the interpolated value
at virtual index `q/100 · (n−1)` of the sorted sequence. -/
def percentile (xs : List ℚ) (q : ℚ) : ℚ :=
  interp (sortScores xs) (q / 100 * ((xs.length : ℚ) - 1))

/-- `np.min` of a score sequence (the sequences in scope are non-empty; the
default is never exercised by any theorem below). -/
def npMin (xs : List ℚ) : ℚ := (xs.min?).getD 0

/-- `np.max` of a score sequence. -/
def npMax (xs : List ℚ) : ℚ := (xs.max?).getD 0

/-- `np.mean` of a score sequence. -/
def npMean (xs : List ℚ) : ℚ := xs.sum / (xs.length : ℚ)

theorem foldl_min_le_init (l : List ℚ) : ∀ a : ℚ, l.foldl min a ≤ a := by
  induction l with
  | nil => intro a; exact le_refl a
  | cons b l ih => intro a; exact le_trans (ih (min a b)) (min_le_left a b)

theorem foldl_min_le_mem (l : List ℚ) : ∀ (a x : ℚ), x ∈ l → l.foldl min a ≤ x := by
  induction l with
  | nil => intro a x hx; cases hx
  | cons b l ih =>
    intro a x hx
    rcases List.mem_cons.mp hx with rfl | hx
    · exact le_trans (foldl_min_le_init l (min a x)) (min_le_right a x)
    · exact ih (min a b) x hx

theorem npMin_le_of_mem {xs : List ℚ} {a : ℚ} (ha : a ∈ xs) : npMin xs ≤ a := by
  cases xs with
  | nil => cases ha
  | cons b l =>
    have hx : npMin (b :: l) = l.foldl min b := by
      rw [npMin, List.min?_cons', Option.getD_some]
    rw [hx]
    rcases List.mem_cons.mp ha with rfl | ha
    · exact foldl_min_le_init l a
    · exact foldl_min_le_mem l b a ha

theorem le_foldl_max_init (l : List ℚ) : ∀ a : ℚ, a ≤ l.foldl max a := by
  induction l with
  | nil => intro a; exact le_refl a
  | cons b l ih => intro a; exact le_trans (le_max_left a b) (ih (max a b))

theorem mem_le_foldl_max (l : List ℚ) : ∀ (a x : ℚ), x ∈ l → x ≤ l.foldl max a := by
  induction l with
  | nil => intro a x hx; cases hx
  | cons b l ih =>
    intro a x hx
    rcases List.mem_cons.mp hx with rfl | hx
    · exact le_trans (le_max_right a x) (le_foldl_max_init l (max a x))
    · exact ih (max a b) x hx

theorem le_npMax_of_mem {xs : List ℚ} {a : ℚ} (ha : a ∈ xs) : a ≤ npMax xs := by
  cases xs with
  | nil => cases ha
  | cons b l =>
    have hx : npMax (b :: l) = l.foldl max b := by
      rw [npMax, List.max?_cons', Option.getD_some]
    rw [hx]
    rcases List.mem_cons.mp ha with rfl | ha
    · exact le_foldl_max_init l a
    · exact mem_le_foldl_max l b a ha

theorem foldl_max_map_neg (l : List ℚ) :
    ∀ a : ℚ, (l.map (fun s => -s)).foldl max (-a) = -(l.foldl min a) := by
  induction l with
  | nil => intro a; rfl
  | cons b l ih =>
    intro a
    simp only [List.map_cons, List.foldl_cons, max_neg_neg]
    exact ih (min a b)

theorem foldl_min_map_neg (l : List ℚ) :
    ∀ a : ℚ, (l.map (fun s => -s)).foldl min (-a) = -(l.foldl max a) := by
  induction l with
  | nil => intro a; rfl
  | cons b l ih =>
    intro a
    simp only [List.map_cons, List.foldl_cons, min_neg_neg]
    exact ih (max a b)

theorem npMax_map_neg (l : List ℚ) : npMax (l.map (fun s => -s)) = -(npMin l) := by
  cases l with
  | nil => simp [npMax, npMin]
  | cons a l =>
    rw [show ((a :: l).map (fun s => -s)) = (-a) :: l.map (fun s => -s) from rfl,
      npMax, npMin, List.max?_cons', List.min?_cons', Option.getD_some, Option.getD_some]
    exact foldl_max_map_neg l a

theorem npMin_map_neg (l : List ℚ) : npMin (l.map (fun s => -s)) = -(npMax l) := by
  cases l with
  | nil => simp [npMax, npMin]
  | cons a l =>
    rw [show ((a :: l).map (fun s => -s)) = (-a) :: l.map (fun s => -s) from rfl,
      npMin, npMax, List.min?_cons', List.max?_cons', Option.getD_some, Option.getD_some]
    exact foldl_min_map_neg l a

theorem toNat_floor_cast_le {h : ℚ} (h0 : 0 ≤ h) : ((⌊h⌋.toNat : ℚ)) ≤ h := by
  rw [show ((⌊h⌋.toNat : ℚ)) = (((⌊h⌋.toNat : ℤ) : ℚ)) from (Int.cast_natCast _).symm,
    Int.toNat_of_nonneg (Int.floor_nonneg.mpr h0)]
  exact Int.floor_le h

theorem lt_toNat_floor_add_one {h : ℚ} (h0 : 0 ≤ h) : h < (⌊h⌋.toNat : ℚ) + 1 := by
  rw [show ((⌊h⌋.toNat : ℚ)) = (((⌊h⌋.toNat : ℤ) : ℚ)) from (Int.cast_natCast _).symm,
    Int.toNat_of_nonneg (Int.floor_nonneg.mpr h0)]
  exact Int.lt_floor_add_one h

theorem toNat_floor_lt_length {s : List ℚ} {h : ℚ} (h0 : 0 ≤ h)
    (hn : h ≤ (s.length : ℚ) - 1) : (⌊h⌋).toNat < s.length := by
  have h1 : (⌊h⌋ : ℤ) ≤ (s.length : ℤ) - 1 := by
    have h2 := Int.floor_mono hn
    rwa [show ((s.length : ℚ) - 1) = (((s.length : ℤ) - 1 : ℤ) : ℚ) by push_cast; ring,
      Int.floor_intCast] at h2
  have h2 : (0 : ℤ) ≤ ⌊h⌋ := Int.floor_nonneg.mpr h0
  omega

theorem getD_of_lt (l : List ℚ) {i : ℕ} (h : i < l.length) (d : ℚ) :
    l.getD i d = l.get ⟨i, h⟩ := by
  simp [List.getD_eq_getElem?_getD, List.getElem?_eq_getElem h]

theorem getD_of_le (l : List ℚ) {i : ℕ} (h : l.length ≤ i) (d : ℚ) :
    l.getD i d = d := by
  simp [List.getD_eq_getElem?_getD, List.getElem?_eq_none h]

theorem sorted_getD_mono {s : List ℚ} (hs : List.Sorted (· ≤ ·) s)
    {i j : ℕ} (hij : i ≤ j) (hj : j < s.length) :
    s.getD i 0 ≤ s.getD j 0 := by
  have hi : i < s.length := lt_of_le_of_lt hij hj
  rw [getD_of_lt s hi, getD_of_lt s hj]
  rcases Nat.eq_or_lt_of_le hij with rfl | hlt
  · exact le_refl _
  · exact hs.rel_get_of_lt (Fin.mk_lt_mk.mpr hlt)

theorem getD_succ_ge {s : List ℚ} (hs : List.Sorted (· ≤ ·) s) (i : ℕ) :
    s.getD i 0 ≤ s.getD (i + 1) (s.getD i 0) := by
  by_cases hr : i + 1 < s.length
  · rw [getD_of_lt s hr, getD_of_lt s (Nat.lt_of_succ_lt hr)]
    exact hs.rel_get_of_lt (Fin.mk_lt_mk.mpr (Nat.lt_succ_self i))
  · rw [getD_of_le s (Nat.le_of_not_lt hr)]

theorem le_interp {s : List ℚ} (hs : List.Sorted (· ≤ ·) s) {h : ℚ} (h0 : 0 ≤ h) :
    s.getD (⌊h⌋).toNat 0 ≤ interp s h := by
  unfold interp
  have h1 := toNat_floor_cast_le h0
  have h2 := getD_succ_ge hs (⌊h⌋).toNat
  nlinarith [mul_nonneg (sub_nonneg.mpr h1) (sub_nonneg.mpr h2)]

theorem interp_le_hi {s : List ℚ} (hs : List.Sorted (· ≤ ·) s) {h : ℚ} (h0 : 0 ≤ h) :
    interp s h ≤ s.getD ((⌊h⌋).toNat + 1) (s.getD (⌊h⌋).toNat 0) := by
  unfold interp
  have h1 := lt_toNat_floor_add_one h0
  have h2 := getD_succ_ge hs (⌊h⌋).toNat
  nlinarith [mul_nonneg
    (by linarith : (0 : ℚ) ≤ 1 - (h - ((⌊h⌋).toNat : ℚ)))
    (sub_nonneg.mpr h2)]

theorem interp_mono {s : List ℚ} (hs : List.Sorted (· ≤ ·) s) {h₁ h₂ : ℚ}
    (h0 : 0 ≤ h₁) (h12 : h₁ ≤ h₂) (h2n : h₂ ≤ (s.length : ℚ) - 1) :
    interp s h₁ ≤ interp s h₂ := by
  have h02 : 0 ≤ h₂ := le_trans h0 h12
  have hii : (⌊h₁⌋).toNat ≤ (⌊h₂⌋).toNat := Int.toNat_le_toNat (Int.floor_mono h12)
  rcases Nat.eq_or_lt_of_le hii with heq | hlt
  · unfold interp
    rw [heq]
    have h2' := getD_succ_ge hs (⌊h₂⌋).toNat
    nlinarith [mul_nonneg (sub_nonneg.mpr h12) (sub_nonneg.mpr h2')]
  · have hi2 : (⌊h₂⌋).toNat < s.length := toNat_floor_lt_length h02 h2n
    have hr : (⌊h₁⌋).toNat + 1 < s.length := lt_of_le_of_lt (Nat.succ_le_of_lt hlt) hi2
    have step1 : interp s h₁ ≤ s.getD ((⌊h₁⌋).toNat + 1) (s.getD (⌊h₁⌋).toNat 0) :=
      interp_le_hi hs h0
    have step2 : s.getD ((⌊h₁⌋).toNat + 1) (s.getD (⌊h₁⌋).toNat 0)
        = s.getD ((⌊h₁⌋).toNat + 1) 0 := by
      rw [getD_of_lt s hr, getD_of_lt s hr]
    have step3 : s.getD ((⌊h₁⌋).toNat + 1) 0 ≤ s.getD ((⌊h₂⌋).toNat) 0 :=
      sorted_getD_mono hs (Nat.succ_le_of_lt hlt) hi2
    have step4 := le_interp hs h02
    linarith

theorem percentile_mono {xs : List ℚ} (hne : xs ≠ []) {q₁ q₂ : ℚ}
    (h0 : 0 ≤ q₁) (h12 : q₁ ≤ q₂) (h100 : q₂ ≤ 100) :
    percentile xs q₁ ≤ percentile xs q₂ := by
  have hn : 1 ≤ xs.length := List.length_pos.mpr hne
  have hn1 : (0 : ℚ) ≤ (xs.length : ℚ) - 1 := by
    have h1 : (1 : ℚ) ≤ (xs.length : ℚ) := by exact_mod_cast hn
    linarith
  unfold percentile
  apply interp_mono (sortScores_sorted xs)
  · exact mul_nonneg (by linarith) hn1
  · exact mul_le_mul_of_nonneg_right (by linarith) hn1
  · rw [sortScores_length]
    nlinarith [mul_le_mul_of_nonneg_right (by linarith : q₂ / 100 ≤ 1) hn1]

theorem percentile_idx_nonneg {xs : List ℚ} (hne : xs ≠ []) {q : ℚ} (h0 : 0 ≤ q) :
    0 ≤ q / 100 * ((xs.length : ℚ) - 1) := by
  have hn : 1 ≤ xs.length := List.length_pos.mpr hne
  have hn1 : (0 : ℚ) ≤ (xs.length : ℚ) - 1 := by
    have h1 : (1 : ℚ) ≤ (xs.length : ℚ) := by exact_mod_cast hn
    linarith
  exact mul_nonneg (by linarith) hn1

theorem percentile_idx_le {xs : List ℚ} (hne : xs ≠ []) {q : ℚ} (h100 : q ≤ 100) :
    q / 100 * ((xs.length : ℚ) - 1) ≤ ((sortScores xs).length : ℚ) - 1 := by
  have hn : 1 ≤ xs.length := List.length_pos.mpr hne
  have hn1 : (0 : ℚ) ≤ (xs.length : ℚ) - 1 := by
    have h1 : (1 : ℚ) ≤ (xs.length : ℚ) := by exact_mod_cast hn
    linarith
  rw [sortScores_length]
  nlinarith [mul_le_mul_of_nonneg_right (by linarith : q / 100 ≤ 1) hn1]

theorem npMin_le_percentile {xs : List ℚ} (hne : xs ≠ []) {q : ℚ}
    (h0 : 0 ≤ q) (h100 : q ≤ 100) : npMin xs ≤ percentile xs q := by
  have hh0 := percentile_idx_nonneg hne h0
  have hhn := percentile_idx_le hne h100
  have hidx : (⌊q / 100 * ((xs.length : ℚ) - 1)⌋).toNat < (sortScores xs).length :=
    toNat_floor_lt_length hh0 hhn
  have hmem : (sortScores xs).getD (⌊q / 100 * ((xs.length : ℚ) - 1)⌋).toNat 0 ∈ xs := by
    rw [getD_of_lt _ hidx]
    exact mem_of_mem_sortScores (List.get_mem _ _ _)
  exact le_trans (npMin_le_of_mem hmem) (le_interp (sortScores_sorted xs) hh0)

theorem percentile_le_npMax {xs : List ℚ} (hne : xs ≠ []) {q : ℚ}
    (h0 : 0 ≤ q) (h100 : q ≤ 100) : percentile xs q ≤ npMax xs := by
  have hh0 := percentile_idx_nonneg hne h0
  have hhn := percentile_idx_le hne h100
  have hidx : (⌊q / 100 * ((xs.length : ℚ) - 1)⌋).toNat < (sortScores xs).length :=
    toNat_floor_lt_length hh0 hhn
  have hstep := interp_le_hi (sortScores_sorted xs) hh0
  by_cases hr : (⌊q / 100 * ((xs.length : ℚ) - 1)⌋).toNat + 1 < (sortScores xs).length
  · have hmem : (sortScores xs).getD ((⌊q / 100 * ((xs.length : ℚ) - 1)⌋).toNat + 1)
        ((sortScores xs).getD (⌊q / 100 * ((xs.length : ℚ) - 1)⌋).toNat 0) ∈ xs := by
      rw [getD_of_lt _ hr]
      exact mem_of_mem_sortScores (List.get_mem _ _ _)
    exact le_trans hstep (le_npMax_of_mem hmem)
  · have heq : (sortScores xs).getD ((⌊q / 100 * ((xs.length : ℚ) - 1)⌋).toNat + 1)
        ((sortScores xs).getD (⌊q / 100 * ((xs.length : ℚ) - 1)⌋).toNat 0)
        = (sortScores xs).getD (⌊q / 100 * ((xs.length : ℚ) - 1)⌋).toNat 0 :=
      getD_of_le _ (Nat.le_of_not_lt hr) _
    have hmem : (sortScores xs).getD (⌊q / 100 * ((xs.length : ℚ) - 1)⌋).toNat 0 ∈ xs := by
      rw [getD_of_lt _ hidx]
      exact mem_of_mem_sortScores (List.get_mem _ _ _)
    rw [heq] at hstep
    exact le_trans hstep (le_npMax_of_mem hmem)

/-- The score-distribution summary built by `compute_threshold_stats`
(`train_isolation_forest.py` lines 92–101).  The `std` entry is a real
square root (`np.std`); no claim constrains it and it is omitted from the
embedding. -/
structure ScoreDistributionStats where
  mean : ℚ
  min : ℚ
  max : ℚ
  p50 : ℚ
  p90 : ℚ
  p95 : ℚ
  p99 : ℚ
deriving DecidableEq, Repr

/-- The statistics dictionary of `train_isolation_forest.py` lines 92–101,
computed from an (already sign-normalized) score sequence. -/
def scoreStatsOf (scores : List ℚ) : ScoreDistributionStats :=
  { mean := npMean scores
    min := npMin scores
    max := npMax scores
    p50 := percentile scores 50
    p90 := percentile scores 90
    p95 := percentile scores 95
    p99 := percentile scores 99 }

/-- `compute_threshold_stats(model, X)` (`train_isolation_forest.py`
lines 88–101), with the raw output of `model.score_samples(X)` abstracted as
the input list: line 90 (`scores = -model.score_samples(X)`) negates every
raw score so that higher means more anomalous, and the statistics are taken
over the negated sequence. -/
def computeThresholdStats (rawScores : List ℚ) : ScoreDistributionStats :=
  scoreStatsOf (rawScores.map (fun s => -s))

/-- The metadata dictionary assembled in `main`
(`train_isolation_forest.py` lines 131–140). -/
structure TrainMetadata where
  model_type : String
  trained_at : String
  input_dims : ℕ
  n_estimators : ℕ
  contamination : ℚ
  training_samples : ℕ
  score_stats : ScoreDistributionStats
  threshold_suggestion : ℚ
deriving DecidableEq, Repr

/-- Builds the exported metadata (`train_isolation_forest.py` lines 131–140):
in particular line 139 sets `threshold_suggestion` to `stats['p95']`. -/
def mkTrainMetadata (now : String) (contamination : ℚ) (nSamples : ℕ)
    (stats : ScoreDistributionStats) : TrainMetadata :=
  { model_type := "IsolationForest"
    trained_at := now
    input_dims := 96
    n_estimators := 100
    contamination := contamination
    training_samples := nSamples
    score_stats := stats
    threshold_suggestion := stats.p95 }

/-- Claim C2: the threshold calibrator negates every raw score (so that a
higher output means more anomalous), and the exported `threshold_suggestion`
equals the 95th percentile of the negated score sequence — the very value
stored as `p95` in `score_stats`, computed by the same linear-interpolation
percentile algorithm.  The last two conjuncts exhibit the sign flip on the
distribution: the negated sequence's extremes are the negated raw extremes,
swapped. -/
theorem C2_threshold_is_p95_of_negated_scores (rawScores : List ℚ) (now : String)
    (contamination : ℚ) (nSamples : ℕ) :
    (mkTrainMetadata now contamination nSamples
        (computeThresholdStats rawScores)).threshold_suggestion
      = (computeThresholdStats rawScores).p95 ∧
    (computeThresholdStats rawScores).p95
      = percentile (rawScores.map (fun s => -s)) 95 ∧
    (computeThresholdStats rawScores).max = -(npMin rawScores) ∧
    (computeThresholdStats rawScores).min = -(npMax rawScores) :=
  ⟨rfl, rfl, npMax_map_neg rawScores, npMin_map_neg rawScores⟩

theorem scoreStatsOf_ordered {scores : List ℚ} (hne : scores ≠ []) :
    (scoreStatsOf scores).min ≤ (scoreStatsOf scores).p50 ∧
    (scoreStatsOf scores).p50 ≤ (scoreStatsOf scores).p90 ∧
    (scoreStatsOf scores).p90 ≤ (scoreStatsOf scores).p95 ∧
    (scoreStatsOf scores).p95 ≤ (scoreStatsOf scores).p99 ∧
    (scoreStatsOf scores).p99 ≤ (scoreStatsOf scores).max :=
  ⟨npMin_le_percentile hne (by norm_num) (by norm_num),
   percentile_mono hne (by norm_num) (by norm_num) (by norm_num),
   percentile_mono hne (by norm_num) (by norm_num) (by norm_num),
   percentile_mono hne (by norm_num) (by norm_num) (by norm_num),
   percentile_le_npMax hne (by norm_num) (by norm_num)⟩

/-- Claim C7: for every non-empty raw score sequence, the computed
`ScoreDistributionStats` satisfies
`min ≤ p50 ≤ p90 ≤ p95 ≤ p99 ≤ max` under the linear-interpolation
percentile semantics. -/
theorem C7_stats_ordering (rawScores : List ℚ) (hne : rawScores ≠ []) :
    (computeThresholdStats rawScores).min ≤ (computeThresholdStats rawScores).p50 ∧
    (computeThresholdStats rawScores).p50 ≤ (computeThresholdStats rawScores).p90 ∧
    (computeThresholdStats rawScores).p90 ≤ (computeThresholdStats rawScores).p95 ∧
    (computeThresholdStats rawScores).p95 ≤ (computeThresholdStats rawScores).p99 ∧
    (computeThresholdStats rawScores).p99 ≤ (computeThresholdStats rawScores).max := by
  have hne' : rawScores.map (fun s => -s) ≠ [] := by
    intro h
    exact hne (List.map_eq_nil_iff.mp h)
  exact scoreStatsOf_ordered hne'

/-- Witness for C7 at the concrete raw score sequence `[1, 5, 2]`. -/
theorem C7_stats_ordering_witness :
    ([(1 : ℚ), 5, 2] ≠ []) ∧
    ((computeThresholdStats [(1 : ℚ), 5, 2]).min ≤ (computeThresholdStats [(1 : ℚ), 5, 2]).p50 ∧
     (computeThresholdStats [(1 : ℚ), 5, 2]).p50 ≤ (computeThresholdStats [(1 : ℚ), 5, 2]).p90 ∧
     (computeThresholdStats [(1 : ℚ), 5, 2]).p90 ≤ (computeThresholdStats [(1 : ℚ), 5, 2]).p95 ∧
     (computeThresholdStats [(1 : ℚ), 5, 2]).p95 ≤ (computeThresholdStats [(1 : ℚ), 5, 2]).p99 ∧
     (computeThresholdStats [(1 : ℚ), 5, 2]).p99 ≤ (computeThresholdStats [(1 : ℚ), 5, 2]).max) :=
  ⟨by decide, C7_stats_ordering [(1 : ℚ), 5, 2] (by decide)⟩

/-- Python dict assignment `d[k] = v`: replaces the value at an existing key
in place (keeping insertion order), or appends the new key at the end
(`compute_stats.py` lines 42–43). -/
def setKey (fs : List (String × Json)) (k : String) (v : Json) :
    List (String × Json) :=
  if fs.any (fun p => p.1 == k) then
    fs.map (fun p => if p.1 == k then (k, v) else p)
  else fs ++ [(k, v)]

/-- The statistics merge of `compute_stats.py` lines 39–43: read the
metadata object, overwrite `mean_vector` and `std_vector` with the computed
per-dimension vectors, leave the rest of the object as it is. -/
def mergeMeta (md : List (String × Json)) (mean std : List ℚ) :
    List (String × Json) :=
  setKey (setKey md "mean_vector" (.arr (mean.map .num)))
    "std_vector" (.arr (std.map .num))


theorem lookup_map_setEntry (k : String) (v : Json) (k' : String) (hk : ¬ k' = k) :
    ∀ l : List (String × Json),
      (l.map (fun p => if p.1 == k then (k, v) else p)).lookup k' = l.lookup k' := by
  intro l
  induction l with
  | nil => rfl
  | cons p l ih =>
    obtain ⟨a, b⟩ := p
    rw [List.map_cons]
    cases hc : (a == k)
    · rw [if_neg (by simp), List.lookup_cons, List.lookup_cons]
      cases k' == a
      · exact ih
      · rfl
    · have hak : a = k := eq_of_beq hc
      rw [if_pos rfl, List.lookup_cons, List.lookup_cons,
        show (k' == k) = false from beq_eq_false_iff_ne.mpr hk,
        show (k' == a) = false from beq_eq_false_iff_ne.mpr (hak ▸ hk)]
      exact ih

theorem lookup_setEntry_self (k : String) (v : Json) :
    ∀ l : List (String × Json), l.any (fun p => p.1 == k) = true →
      (l.map (fun p => if p.1 == k then (k, v) else p)).lookup k = some v := by
  intro l
  induction l with
  | nil => intro h; cases h
  | cons p l ih =>
    intro hany
    obtain ⟨a, b⟩ := p
    rw [List.map_cons]
    cases hc : (a == k)
    · rw [if_neg (by simp), List.lookup_cons,
        show (k == a) = false from
          beq_eq_false_iff_ne.mpr (fun h => (beq_eq_false_iff_ne.mp hc) h.symm)]
      refine ih ?_
      rw [List.any_cons] at hany
      simpa [hc] using hany
    · rw [if_pos rfl, List.lookup_cons, beq_self_eq_true k]

theorem any_reverse_key (l : List (String × Json)) (k : String) :
    l.reverse.any (fun p => p.1 == k) = l.any (fun p => p.1 == k) := by
  induction l with
  | nil => rfl
  | cons p l ih =>
    rw [List.reverse_cons, List.any_append, List.any_cons, ih, List.any_cons]
    simp [Bool.or_comm]

theorem dictGet_setKey_frame (fs : List (String × Json)) (k : String) (v : Json)
    (k' : String) (hk : k' ≠ k) : dictGet (setKey fs k v) k' = dictGet fs k' := by
  unfold setKey dictGet
  by_cases hany : fs.any (fun p => p.1 == k) = true
  · rw [if_pos hany, ← List.map_reverse]
    exact lookup_map_setEntry k v k' hk fs.reverse
  · rw [if_neg hany, List.reverse_append, List.reverse_singleton, List.singleton_append,
      List.lookup_cons, show (k' == k) = false from beq_eq_false_iff_ne.mpr hk]

theorem dictGet_setKey_self (fs : List (String × Json)) (k : String) (v : Json) :
    dictGet (setKey fs k v) k = some v := by
  unfold setKey dictGet
  by_cases hany : fs.any (fun p => p.1 == k) = true
  · rw [if_pos hany, ← List.map_reverse]
    exact lookup_setEntry_self k v fs.reverse (by rw [any_reverse_key]; exact hany)
  · rw [if_neg hany, List.reverse_append, List.reverse_singleton, List.singleton_append,
      List.lookup_cons, beq_self_eq_true k]

/-- Claim C6: after the statistics merge, every metadata field other than
`mean_vector` and `std_vector` is unchanged from the pre-merge metadata;
exactly `mean_vector` and `std_vector` are overwritten with the computed
vectors. -/
theorem C6_merge_frame (md : List (String × Json)) (mean std : List ℚ)
    (k : String) (h1 : k ≠ "mean_vector") (h2 : k ≠ "std_vector") :
    dictGet (mergeMeta md mean std) k = dictGet md k ∧
    dictGet (mergeMeta md mean std) "mean_vector" = some (.arr (mean.map .num)) ∧
    dictGet (mergeMeta md mean std) "std_vector" = some (.arr (std.map .num)) := by
  unfold mergeMeta
  refine ⟨?_, ?_, ?_⟩
  · rw [dictGet_setKey_frame _ _ _ _ h2, dictGet_setKey_frame _ _ _ _ h1]
  · rw [dictGet_setKey_frame _ _ _ _ (by decide : "mean_vector" ≠ "std_vector"),
      dictGet_setKey_self]
  · rw [dictGet_setKey_self]

/-- Witness for C6: the `model_type` field of a concrete metadata object
survives the merge untouched. -/
theorem C6_merge_frame_witness :
    ("model_type" ≠ "mean_vector") ∧ ("model_type" ≠ "std_vector") ∧
    dictGet (mergeMeta [("model_type", Json.null)] [1] [2]) "model_type"
      = dictGet [("model_type", Json.null)] "model_type" :=
  ⟨by decide, by decide,
    (C6_merge_frame [("model_type", Json.null)] [1] [2] "model_type"
      (by decide) (by decide)).1⟩

/-- Observable on-disk state of the metadata file. -/
inductive FileState (α : Type) where
  /-- The file holds a complete, parseable content. -/
  | content (a : α)
  /-- The file is truncated (empty or partially written): not a valid
  metadata file. -/
  | truncated

/-- The sequence of on-disk states of the metadata file during the merge's
persist step, `with open(metadata_path, 'w') as f: json.dump(metadata, f,
indent=2)` (`compute_stats.py` lines 45–46): Python's `open(path, 'w')`
truncates the existing file in place the moment it is opened, and the
serialized text is then written into it.  There is no temp-file-plus-rename
staging, so a run interrupted after the open (or mid-dump) leaves the
truncated state on disk. -/
def mergePersistStates (old new : List (String × Json)) :
    List (FileState (List (String × Json))) :=
  [.content old, .truncated, .content new]

/-- Counterexample to claim C3: the persist step of the statistics merge is
not atomic.  At a concrete pre-merge metadata object, the observable state
sequence contains the truncated state, which is neither the intact prior
file nor the fully-written updated file — so it is not the case that every
visible state is one of the two. -/
theorem C3_counterexample :
    ¬ (∀ st ∈ mergePersistStates [("model_type", Json.null)]
        (mergeMeta [("model_type", Json.null)] [1] [2]),
        st = .content [("model_type", Json.null)] ∨
        st = .content (mergeMeta [("model_type", Json.null)] [1] [2])) := by
  intro h
  have hmem : (FileState.truncated : FileState (List (String × Json))) ∈
      mergePersistStates [("model_type", Json.null)]
        (mergeMeta [("model_type", Json.null)] [1] [2]) := by
    unfold mergePersistStates
    exact List.mem_cons_of_mem _ (List.mem_cons_self _ _)
  rcases h _ hmem with hc | hc <;> exact FileState.noConfusion hc

/-- Claim C3, amended: the merge persists with a truncating in-place
overwrite.  An uninterrupted run ends with the fully-updated metadata on
disk (the final observable state) and starts from the intact prior file (the
initial state), but between the two the truncated file is observable: a run
interrupted there leaves neither the prior nor the updated metadata. -/
theorem C3_amended_truncating_overwrite (old new : List (String × Json)) :
    (mergePersistStates old new).getLast? = some (.content new) ∧
    (mergePersistStates old new).head? = some (.content old) ∧
    FileState.truncated ∈ mergePersistStates old new := by
  refine ⟨rfl, rfl, ?_⟩
  unfold mergePersistStates
  exact List.mem_cons_of_mem _ (List.mem_cons_self _ _)

/-- The constructor arguments of `IsolationForest(...)`
(`train_isolation_forest.py` lines 53–62), except the out-of-scope
logging/parallelism knobs (`verbose`, `n_jobs`) that do not influence the
fitted model. -/
structure IFParams where
  n_estimators : ℕ
  contamination : ℚ
  max_features : ℚ
  bootstrap : Bool
  random_state : ℕ
deriving DecidableEq, Repr

/-- The parameters `train_model` passes to the capability: every field is a
literal constant of lines 53–62 except `contamination`; in particular
`random_state := 42`. -/
def ifParams (contamination : ℚ) : IFParams :=
  { n_estimators := 100
    contamination := contamination
    max_features := 1
    bootstrap := false
    random_state := 42 }

/-- `train_model(X, contamination)` (`train_isolation_forest.py`
lines 49–66), with the external fitting capability abstracted as a function
argument: the model is the capability applied to the fixed parameter record
and the dataset — nothing else flows in. -/
def train_model {M : Type} (fit : IFParams → List (List ℚ) → M)
    (X : List (List ℚ)) (contamination : ℚ) : M :=
  fit (ifParams contamination) X

/-- The outputs of one training-pipeline run that claim C10 compares. -/
structure RunOutput (M : Type) where
  model : M
  stats : ScoreDistributionStats
  metadata : TrainMetadata

/-- One run of the training pipeline (`train_isolation_forest.py`
lines 118–142, after loading): train, score, compute threshold statistics,
assemble metadata.  `now` is the ambient `datetime.utcnow()` value, the only
run-dependent input (line 133). -/
def pipelineRun {M : Type} (fit : IFParams → List (List ℚ) → M)
    (score : M → List (List ℚ) → List ℚ) (X : List (List ℚ))
    (contamination : ℚ) (now : String) : RunOutput M :=
  let model := train_model fit X contamination
  let stats := computeThresholdStats (score model X)
  { model := model
    stats := stats
    metadata := mkTrainMetadata now contamination X.length stats }

/-- Claim C10: training and calibration are deterministic across runs.  The
external capability is a function of the passed parameters and dataset only;
the pipeline passes the literal seed `random_state = 42` and no other
run-varying input, so two runs on the same dataset and contamination —
even at different wall-clock times — produce an identical model and
identical score statistics (only the `trained_at` metadata field can
differ). -/
theorem C10_two_run_determinism {M : Type} (fit : IFParams → List (List ℚ) → M)
    (score : M → List (List ℚ) → List ℚ) (X : List (List ℚ))
    (contamination : ℚ) (now₁ now₂ : String) :
    (pipelineRun fit score X contamination now₁).model
      = (pipelineRun fit score X contamination now₂).model ∧
    (pipelineRun fit score X contamination now₁).stats
      = (pipelineRun fit score X contamination now₂).stats ∧
    (ifParams contamination).random_state = 42 :=
  ⟨rfl, rfl, rfl⟩
